import Mathlib

/-!
Verification of the access-control sketch in `src/Ethernet_SPIFFS_1.ino`.

The embedding models the two cores of the program:
* `checkCardAccess` (source lines 159-178): the scan over the `fileRows`
  array that decides whether a scanned card id is granted access;
* `loopStep` (source lines 105-156): one invocation of the Arduino `loop`
  body, covering connection acceptance, byte accumulation, request
  dispatch, the client timeout and the RFID/output-pulse section.

Strings are modelled as `List Char`; the Arduino `String` methods used by
the source (`indexOf`, `lastIndexOf`, `substring`, `endsWith`, `+=`,
`length`) are given as list functions with the same semantics.
-/

set_option maxRecDepth 8000

namespace EthernetSpiffs

/-- Source line 8: `#define MAX_ROWS 200`, the number of slots of the global
`fileRows` array.  Empty slots hold the empty string and are skipped by the
scan, so the model takes the slot list as a `List (List Char)`. -/
def MAX_ROWS : Nat := 200

/-- Arduino `String.indexOf(ch)`: index of the first occurrence of `ch`,
`none` when absent (the source checks the sentinel `-1`). -/
def strIndexOf : List Char → Char → Option Nat
  | [], _ => none
  | a :: rest, c => if a = c then some 0 else (strIndexOf rest c).map (fun i => i + 1)

/-- Arduino `String.lastIndexOf(ch)`: index of the last occurrence of `ch`,
`none` when absent. -/
def strLastIndexOf : List Char → Char → Option Nat
  | [], _ => none
  | a :: rest, c =>
    match strLastIndexOf rest c with
    | some i => some (i + 1)
    | none => if a = c then some 0 else none

/-- One iteration of the scan body of `checkCardAccess` (source lines
161-175) applied to a single row: `some b` when the row is non-empty,
contains a `'|'`, and the characters before the first `'|'`
(`substring(0, firstPipe)`) equal the scanned id — `b` is then the result
the source returns, namely whether the characters after the last `'|'`
(`substring(thirdPipe + 1)`) are exactly `"1"`; `none` when the loop falls
through to the next row. -/
def checkRow (cardId row : List Char) : Option Bool :=
  if 0 < row.length then
    match strIndexOf row '|' with
    | some firstPipe =>
      if row.take firstPipe = cardId then
        match strLastIndexOf row '|' with
        | some thirdPipe => some (decide (row.drop (thirdPipe + 1) = ['1']))
        | none => none
      else none
    | none => none
  else none

/-- `checkCardAccess` (source lines 159-178): walk the `fileRows` slots in
index order; the first row on which the body returns decides the result;
`false` when the scan exhausts the array. -/
def checkCardAccess (cardId : List Char) : List (List Char) → Bool
  | [] => false
  | row :: rest =>
    match checkRow cardId row with
    | some b => b
    | none => checkCardAccess cardId rest

/-- The id field of a row: the characters before the first `'|'`
(`substring(0, indexOf('|'))` in the source); the whole row when no
delimiter is present. -/
def idField (row : List Char) : List Char :=
  match strIndexOf row '|' with
  | some p => row.take p
  | none => row

/-- The enabled field of a row: the characters after the last `'|'`
(`substring(lastIndexOf('|') + 1)` in the source); the whole row when no
delimiter is present. -/
def enabledField (row : List Char) : List Char :=
  match strLastIndexOf row '|' with
  | some q => row.drop (q + 1)
  | none => row

/-- A row that `checkCardAccess` treats as a record for `cardId`:
non-empty, containing the delimiter, with id field equal to `cardId`. -/
def isRecordFor (cardId row : List Char) : Prop :=
  row ≠ [] ∧ '|' ∈ row ∧ idField row = cardId

instance (cardId row : List Char) : Decidable (isRecordFor cardId row) := by
  unfold isRecordFor
  infer_instance

lemma strIndexOf_isSome_iff (c : Char) : ∀ row : List Char,
    (strIndexOf row c).isSome = true ↔ c ∈ row
  | [] => by simp [strIndexOf]
  | a :: rest => by
    by_cases h : a = c
    · subst h
      simp [strIndexOf]
    · rw [strIndexOf]
      rw [if_neg h]
      cases hx : strIndexOf rest c with
      | none =>
        have hmem : c ∉ rest := by
          intro hm
          have := (strIndexOf_isSome_iff c rest).mpr hm
          rw [hx] at this
          simp at this
        simp [hmem]
        exact fun hh => h hh.symm
      | some i =>
        have hmem : c ∈ rest := by
          apply (strIndexOf_isSome_iff c rest).mp
          rw [hx]
          rfl
        simp [hmem]

lemma strLastIndexOf_isSome_iff (c : Char) : ∀ row : List Char,
    (strLastIndexOf row c).isSome = true ↔ c ∈ row
  | [] => by simp [strLastIndexOf]
  | a :: rest => by
    rw [strLastIndexOf]
    cases hx : strLastIndexOf rest c with
    | none =>
      have hmem : c ∉ rest := by
        intro hm
        have := (strLastIndexOf_isSome_iff c rest).mpr hm
        rw [hx] at this
        simp at this
      by_cases h : a = c
      · subst h
        simp
      · simp [hmem]
        exact eq_comm
    | some i =>
      have hmem : c ∈ rest := by
        apply (strLastIndexOf_isSome_iff c rest).mp
        rw [hx]
        rfl
      simp [hmem]

lemma checkRow_eq_some_iff (cardId row : List Char) (b : Bool) :
    checkRow cardId row = some b ↔
      isRecordFor cardId row ∧ b = decide (enabledField row = ['1']) := by
  unfold checkRow
  cases hfp : strIndexOf row '|' with
  | none =>
    have hmem : '|' ∉ row := by
      intro hm
      have := (strIndexOf_isSome_iff '|' row).mpr hm
      rw [hfp] at this
      simp at this
    have : ¬ isRecordFor cardId row := fun hr => hmem hr.2.1
    simp [this]
  | some p =>
    have hmem : '|' ∈ row := by
      apply (strIndexOf_isSome_iff '|' row).mp
      rw [hfp]
      rfl
    have hne : row ≠ [] := by
      rintro rfl
      simp [strIndexOf] at hfp
    have hlen : 0 < row.length := List.length_pos.mpr hne
    have hid : idField row = row.take p := by
      unfold idField
      rw [hfp]
    cases hlp : strLastIndexOf row '|' with
    | none =>
      exfalso
      have := (strLastIndexOf_isSome_iff '|' row).mpr hmem
      rw [hlp] at this
      simp at this
    | some q =>
      have hen : enabledField row = row.drop (q + 1) := by
        unfold enabledField
        rw [hlp]
      rw [if_pos hlen]
      by_cases hcid : row.take p = cardId
      · unfold isRecordFor
        rw [hid, hen]
        simp [hne, hmem, hcid]
        exact eq_comm
      · unfold isRecordFor
        rw [hid]
        simp [hcid]

lemma checkRow_eq_none_iff (cardId row : List Char) :
    checkRow cardId row = none ↔ ¬ isRecordFor cardId row := by
  cases h : checkRow cardId row with
  | none =>
    simp only [true_iff]
    intro hrec
    have := (checkRow_eq_some_iff cardId row (decide (enabledField row = ['1']))).mpr ⟨hrec, rfl⟩
    rw [h] at this
    cases this
  | some b =>
    have hrec := ((checkRow_eq_some_iff cardId row b).mp h).1
    simp [hrec]

lemma checkCardAccess_of_no_match (cardId : List Char) : ∀ rows : List (List Char),
    (∀ row ∈ rows, ¬ isRecordFor cardId row) → checkCardAccess cardId rows = false
  | [], _ => rfl
  | row :: rest, h => by
    have hrow : checkRow cardId row = none :=
      (checkRow_eq_none_iff cardId row).mpr (h row (List.mem_cons_self row rest))
    rw [checkCardAccess, hrow]
    exact checkCardAccess_of_no_match cardId rest
      (fun r hr => h r (List.mem_cons_of_mem row hr))

lemma checkCardAccess_first (cardId : List Char) : ∀ (pre : List (List Char))
    (row : List Char) (rest : List (List Char)),
    (∀ r ∈ pre, ¬ isRecordFor cardId r) → isRecordFor cardId row →
    checkCardAccess cardId (pre ++ row :: rest) = decide (enabledField row = ['1'])
  | [], row, rest, _, hrow => by
    have h : checkRow cardId row = some (decide (enabledField row = ['1'])) :=
      (checkRow_eq_some_iff cardId row (decide (enabledField row = ['1']))).mpr ⟨hrow, rfl⟩
    rw [List.nil_append, checkCardAccess, h]
  | r :: pre, row, rest, hpre, hrow => by
    have h : checkRow cardId r = none :=
      (checkRow_eq_none_iff cardId r).mpr (hpre r (List.mem_cons_self r pre))
    rw [List.cons_append, checkCardAccess, h]
    exact checkCardAccess_first cardId pre row rest
      (fun x hx => hpre x (List.mem_cons_of_mem r hx)) hrow

/-- Claim C1: for every scanned card identifier, `checkCardAccess` returns
false when no row of the store is a record whose id field matches; when a
first matching record exists, it returns false when that record's enabled
field is not `"1"`, and true exactly when its enabled field is `"1"`. -/
theorem checkCardAccess_C1 (cardId : List Char) (rows : List (List Char)) :
    ((∀ row ∈ rows, ¬ isRecordFor cardId row) → checkCardAccess cardId rows = false) ∧
    (∀ pre row rest, rows = pre ++ row :: rest →
      (∀ r ∈ pre, ¬ isRecordFor cardId r) → isRecordFor cardId row →
      ((enabledField row ≠ ['1'] → checkCardAccess cardId rows = false) ∧
       (checkCardAccess cardId rows = true ↔ enabledField row = ['1']))) := by
  refine ⟨checkCardAccess_of_no_match cardId rows, ?_⟩
  intro pre row rest hrows hpre hrow
  subst hrows
  have h := checkCardAccess_first cardId pre row rest hpre hrow
  rw [h]
  constructor
  · intro hne
    simp [hne]
  · simp

/-- Witness for C1 at concrete inputs: the first matching record has enabled
field `"0"`, so access is denied even though a later matching record is
enabled. -/
theorem checkCardAccess_C1_witness :
    checkCardAccess ("A1B2".toList)
      ["X9|Bob|Ops|1".toList, "A1B2|Alice|Eng|0".toList, "A1B2|Alice|Eng|1".toList]
      = false := by
  have h := (checkCardAccess_C1 ("A1B2".toList)
      ["X9|Bob|Ops|1".toList, "A1B2|Alice|Eng|0".toList, "A1B2|Alice|Eng|1".toList]).2
      ["X9|Bob|Ops|1".toList] ("A1B2|Alice|Eng|0".toList) ["A1B2|Alice|Eng|1".toList]
      rfl (by decide) (by decide)
  exact h.1 (by decide)

/-- Claim C4: when a store decomposes as earlier non-matching rows, a first
matching record, and an arbitrary tail, the access decision equals the first
matching record's enabled test and is unchanged under replacing the tail —
in particular later duplicate records never influence the result. -/
theorem checkCardAccess_C4 (cardId : List Char) (pre : List (List Char))
    (row : List Char) (rest rest2 : List (List Char))
    (hpre : ∀ r ∈ pre, ¬ isRecordFor cardId r) (hrow : isRecordFor cardId row) :
    checkCardAccess cardId (pre ++ row :: rest) =
      checkCardAccess cardId (pre ++ row :: rest2) ∧
    checkCardAccess cardId (pre ++ row :: rest) =
      decide (enabledField row = ['1']) := by
  have h1 := checkCardAccess_first cardId pre row rest hpre hrow
  have h2 := checkCardAccess_first cardId pre row rest2 hpre hrow
  exact ⟨h1.trans h2.symm, h1⟩

/-- Witness for C4 at concrete inputs: a duplicate disabled record after the
first enabled one does not change the grant. -/
theorem checkCardAccess_C4_witness :
    checkCardAccess ("A1B2".toList)
      ["A1B2|Alice|Eng|1".toList, "A1B2|Alice|Eng|0".toList] = true := by
  have h := checkCardAccess_C4 ("A1B2".toList) [] ("A1B2|Alice|Eng|1".toList)
      ["A1B2|Alice|Eng|0".toList] [] (by decide) (by decide)
  exact h.2.trans (by decide)

/-- Claim C9: for the first matching record, access is granted exactly when
the characters strictly after the LAST `'|'` of the row are `"1"`; extra
delimiters embedded in the name or unit fields therefore cannot change the
decision, and any other final-field value denies. -/
theorem checkCardAccess_C9 (cardId : List Char) (pre : List (List Char))
    (row : List Char) (rest : List (List Char)) (q : Nat)
    (hpre : ∀ r ∈ pre, ¬ isRecordFor cardId r) (hrow : isRecordFor cardId row)
    (hq : strLastIndexOf row '|' = some q) :
    (checkCardAccess cardId (pre ++ row :: rest) = true ↔ row.drop (q + 1) = ['1']) := by
  have h := checkCardAccess_first cardId pre row rest hpre hrow
  have hen : enabledField row = row.drop (q + 1) := by
    unfold enabledField
    rw [hq]
  rw [h, hen]
  simp

/-- Witness for C9 at concrete inputs: the row carries extra `'|'`
characters inside the name field, and the grant is still decided by the
substring after the last delimiter. -/
theorem checkCardAccess_C9_witness :
    checkCardAccess ("A1B2".toList) ["A1B2|Al|ice|Eng|1".toList] = true := by
  have h := checkCardAccess_C9 ("A1B2".toList) [] ("A1B2|Al|ice|Eng|1".toList) [] 15
      (by decide) (by decide) (by decide)
  exact h.mpr (by decide)

/-- Claim C10: a stored row containing no `'|'` delimiter is transparent to
the access scan — removing it leaves the decision unchanged, so such a row
can never produce a grant even when its whole text equals the scanned id. -/
theorem checkCardAccess_C10 (cardId : List Char) : ∀ (pre : List (List Char))
    (row : List Char) (rest : List (List Char)), '|' ∉ row →
    checkCardAccess cardId (pre ++ row :: rest) = checkCardAccess cardId (pre ++ rest)
  | [], row, rest, hrow => by
    have h : checkRow cardId row = none :=
      (checkRow_eq_none_iff cardId row).mpr (fun hr => hrow hr.2.1)
    rw [List.nil_append, List.nil_append, checkCardAccess, h]
  | r :: pre, row, rest, hrow => by
    rw [List.cons_append, List.cons_append, checkCardAccess, checkCardAccess]
    cases h : checkRow cardId r with
    | some b => rfl
    | none => exact checkCardAccess_C10 cardId pre row rest hrow

/-- Witness for C10 at concrete inputs: a delimiterless row whose entire
text equals the scanned id still denies access. -/
theorem checkCardAccess_C10_witness :
    checkCardAccess ("A1B2".toList) ["A1B2".toList] = false := by
  have h := checkCardAccess_C10 ("A1B2".toList) [] ("A1B2".toList) [] (by decide)
  simpa using h

/-! The loop body (source lines 105-156). -/

/-- Source line 38: `const unsigned long clientTimeout = 1000`. -/
def clientTimeout : Nat := 1000

/-- The request terminator checked on source line 120: `"\r\n\r\n"`. -/
def terminator : List Char := ['\r', '\n', '\r', '\n']

/-- Arduino `String.endsWith("\r\n\r\n")` (source line 120). -/
def endsWithTerm (s : List Char) : Bool := decide (terminator <:+ s)

/-- The `while (client.available())` read loop (source lines 115-125):
append each byte to the buffer and, after each append, test whether the
buffer now ends with the terminator.  Returns the final buffer, the request
handed to `handleRequest` when the terminator was seen (`none` otherwise),
and the bytes left unread because of the early `return`. -/
def accumulate : List Char → List Char → List Char × Option (List Char) × List Char
  | buf, [] => (buf, none, [])
  | buf, c :: rest =>
    if endsWithTerm (buf ++ [c]) then (buf ++ [c], some (buf ++ [c]), rest)
    else accumulate (buf ++ [c]) rest

/-- The mutable state the loop body carries across invocations: whether the
`client` object holds a connected client, the `currentRequest` buffer, the
`lastClientCheck` timestamp, and the global `fileRows` array. -/
structure LoopState where
  clientConnected : Bool
  currentRequest : List Char
  lastClientCheck : Nat
  fileRows : List (List Char)

/-- The environment of one loop invocation: the current `millis()` reading,
whether `server.available()` yields a client, the bytes the connected
client has available, and the canonical id string a successful
`readPassiveTargetID` + `ConvertByteToString` produces (`none` when no card
is present). -/
structure LoopInput where
  now : Nat
  newClient : Bool
  clientBytes : List Char
  card : Option (List Char)

/-- The externally visible actions of the RFID grant branch (source lines
147-150): drive the output high, the blocking `delay`, drive it low. -/
inductive OutputAction where
  | setHigh : OutputAction
  | delayMs : Nat → OutputAction
  | setLow : OutputAction
deriving DecidableEq

/-- What one loop invocation did: the successor state, whether
`nfc.readPassiveTargetID` was reached, the request passed to
`handleRequest` (the only path that writes response bytes), whether
`client.stop()` ran, and the output-pin actions performed. -/
structure LoopResult where
  state : LoopState
  rfidPolled : Bool
  dispatched : Option (List Char)
  clientStopped : Bool
  outputActions : List OutputAction

/-- One invocation of `loop` (source lines 105-156).  Lines 107-112: with no
connected client, poll `server.available()`, reset the buffer, restart the
timeout clock, and return — nothing further runs.  Lines 115-125: consume
available bytes; on seeing the terminator, dispatch and stop the client and
return.  Lines 128-131: otherwise stop the client when the time since
acceptance exceeds `clientTimeout`.  Lines 134-155: poll the reader and, on
a granted card, pulse the output (high, blocking delay of 1000 ms, low). -/
def loopStep (s : LoopState) (inp : LoopInput) : LoopResult :=
  if s.clientConnected = true then
    match accumulate s.currentRequest inp.clientBytes with
    | (buf2, some req, _) =>
      { state := { clientConnected := false, currentRequest := buf2,
                   lastClientCheck := s.lastClientCheck, fileRows := s.fileRows },
        rfidPolled := false, dispatched := some req, clientStopped := true,
        outputActions := [] }
    | (buf2, none, _) =>
      { state := { clientConnected := !decide (clientTimeout < inp.now - s.lastClientCheck),
                   currentRequest := buf2,
                   lastClientCheck := s.lastClientCheck, fileRows := s.fileRows },
        rfidPolled := true, dispatched := none,
        clientStopped := decide (clientTimeout < inp.now - s.lastClientCheck),
        outputActions :=
          match inp.card with
          | some cid =>
            if checkCardAccess cid s.fileRows then
              [OutputAction.setHigh, OutputAction.delayMs 1000, OutputAction.setLow]
            else []
          | none => [] }
  else
    { state := { clientConnected := inp.newClient, currentRequest := [],
                 lastClientCheck := inp.now, fileRows := s.fileRows },
      rfidPolled := false, dispatched := none, clientStopped := false,
      outputActions := [] }

lemma loopStep_none_branch (s : LoopState) (inp : LoopInput) (buf2 r2 : List Char)
    (hconn : s.clientConnected = true)
    (hacc : accumulate s.currentRequest inp.clientBytes = (buf2, none, r2)) :
    (loopStep s inp).state.currentRequest = buf2 ∧
    (loopStep s inp).dispatched = none ∧
    (loopStep s inp).clientStopped = decide (clientTimeout < inp.now - s.lastClientCheck) := by
  refine ⟨?_, ?_, ?_⟩ <;> simp [loopStep, hconn, hacc]

lemma accumulate_some_spec : ∀ (bytes buf req : List Char),
    (accumulate buf bytes).2.1 = some req →
    endsWithTerm req = true ∧
    ∃ n, 1 ≤ n ∧ n ≤ bytes.length ∧ req = buf ++ bytes.take n ∧
      ∀ m, 1 ≤ m → m < n → endsWithTerm (buf ++ bytes.take m) = false
  | [], buf, req => by
    intro h
    simp [accumulate] at h
  | c :: rest, buf, req => by
    intro h
    by_cases ht : endsWithTerm (buf ++ [c]) = true
    · rw [accumulate, if_pos ht] at h
      simp only at h
      obtain rfl : buf ++ [c] = req := Option.some.inj h
      refine ⟨ht, 1, Nat.le_refl 1, by simp, by simp, ?_⟩
      intro m h1 h2
      omega
    · have ht2 : ¬ (endsWithTerm (buf ++ [c]) = true) := ht
      rw [accumulate, if_neg ht2] at h
      obtain ⟨hterm, n, hn1, hn2, hreq, hmin⟩ := accumulate_some_spec rest (buf ++ [c]) req h
      refine ⟨hterm, n + 1, by omega, by simp; omega, ?_, ?_⟩
      · rw [hreq, List.take_succ_cons, List.append_assoc, List.singleton_append]
      · intro m hm1 hm2
        rcases Nat.lt_or_ge m 2 with hm | hm
        · have : m = 1 := by omega
          subst this
          simp only [List.take_succ_cons, List.take_zero, List.append_nil]
          exact Bool.eq_false_iff.mpr ht
        · obtain ⟨k, rfl⟩ : ∃ k, m = k + 1 := ⟨m - 1, by omega⟩
          have := hmin k (by omega) (by omega)
          rw [List.take_succ_cons, ← List.singleton_append, ← List.append_assoc]
          exact this

lemma accumulate_none_spec : ∀ (bytes buf : List Char),
    (accumulate buf bytes).2.1 = none ↔
      ∀ n, 1 ≤ n → n ≤ bytes.length → endsWithTerm (buf ++ bytes.take n) = false
  | [], buf => by
    simp only [accumulate, List.length_nil]
    constructor
    · intro _ n h1 h2
      omega
    · intro _
      trivial
  | c :: rest, buf => by
    by_cases ht : endsWithTerm (buf ++ [c]) = true
    · rw [accumulate, if_pos ht]
      simp only
      constructor
      · intro h
        cases h
      · intro hall
        have := hall 1 (by omega) (by simp)
        simp only [List.take_succ_cons, List.take_zero, List.append_nil] at this
        rw [ht] at this
        cases this
    · have ht2 : ¬ (endsWithTerm (buf ++ [c]) = true) := ht
      rw [accumulate, if_neg ht2]
      rw [accumulate_none_spec rest (buf ++ [c])]
      constructor
      · intro hall n h1 h2
        rcases Nat.lt_or_ge n 2 with hn | hn
        · have : n = 1 := by omega
          subst this
          simp only [List.take_succ_cons, List.take_zero, List.append_nil]
          exact Bool.eq_false_iff.mpr ht
        · obtain ⟨k, rfl⟩ : ∃ k, n = k + 1 := ⟨n - 1, by omega⟩
          have := hall k (by omega) (by simp at h2; omega)
          rw [List.take_succ_cons, ← List.singleton_append, ← List.append_assoc]
          exact this
      · intro hall n h1 h2
        have := hall (n + 1) (by omega) (by simp; omega)
        rw [List.take_succ_cons, ← List.singleton_append, ← List.append_assoc] at this
        exact this

lemma endsWithTerm_append_ne (l : List Char) (c : Char) (hc : c ≠ '\n') :
    endsWithTerm (l ++ [c]) = false := by
  unfold endsWithTerm
  rw [decide_eq_false_iff_not]
  rintro ⟨t, ht⟩
  have h2 := congrArg List.reverse ht
  rw [List.reverse_append, List.reverse_append] at h2
  simp only [terminator, List.reverse_cons, List.reverse_nil, List.nil_append,
    List.reverse_singleton, List.singleton_append, List.cons_append] at h2
  exact hc (List.head_eq_of_cons_eq h2.symm)

lemma accumulate_of_no_newline : ∀ (bytes buf : List Char),
    (∀ c ∈ bytes, c ≠ '\n') → accumulate buf bytes = (buf ++ bytes, none, [])
  | [], buf, _ => by simp [accumulate]
  | c :: rest, buf, h => by
    have hc : c ≠ '\n' := h c (List.mem_cons_self c rest)
    have ht : endsWithTerm (buf ++ [c]) = false := endsWithTerm_append_ne buf c hc
    rw [accumulate, if_neg (by rw [ht]; exact Bool.false_ne_true)]
    rw [accumulate_of_no_newline rest (buf ++ [c]) (fun x hx => h x (List.mem_cons_of_mem c hx))]
    rw [List.append_assoc, List.singleton_append]

/-- Claim C5: the loop dispatches exactly the request the byte-accumulation
produces, and accumulation yields `some req` precisely when the buffer
first ends with the four-byte terminator after an appended byte — the
request always ends with the terminator, corresponds to the least number of
consumed bytes whose accumulated buffer ends with the terminator, and no
request is ever produced before the terminator has been received. -/
theorem loop_dispatch_C5 (s : LoopState) (inp : LoopInput)
    (hconn : s.clientConnected = true) :
    ((loopStep s inp).dispatched = (accumulate s.currentRequest inp.clientBytes).2.1) ∧
    (∀ req, (accumulate s.currentRequest inp.clientBytes).2.1 = some req →
      endsWithTerm req = true ∧
      ∃ n, 1 ≤ n ∧ n ≤ inp.clientBytes.length ∧
        req = s.currentRequest ++ inp.clientBytes.take n ∧
        ∀ m, 1 ≤ m → m < n →
          endsWithTerm (s.currentRequest ++ inp.clientBytes.take m) = false) ∧
    ((accumulate s.currentRequest inp.clientBytes).2.1 = none ↔
      ∀ n, 1 ≤ n → n ≤ inp.clientBytes.length →
        endsWithTerm (s.currentRequest ++ inp.clientBytes.take n) = false) := by
  refine ⟨?_, fun req h => accumulate_some_spec _ _ _ h, accumulate_none_spec _ _⟩
  rcases hacc : accumulate s.currentRequest inp.clientBytes with ⟨buf2, o, r2⟩
  cases o <;> simp [loopStep, hconn, hacc]

/-- Witness for C5 at concrete inputs: the loop dispatches the buffer the
moment it ends with the terminator. -/
theorem loop_dispatch_C5_witness :
    (loopStep ⟨true, [], 0, []⟩ ⟨0, false, "AB\r\n\r\n".toList, none⟩).dispatched
      = some ("AB\r\n\r\n".toList) := by
  have h := (loop_dispatch_C5 ⟨true, [], 0, []⟩
      ⟨0, false, "AB\r\n\r\n".toList, none⟩ rfl).1
  rw [h]
  decide

/-- Claim C6: when the accumulated bytes complete a request, the loop
dispatches it, stops the client in the same invocation, leaves the
connection closed, and the successor state can never dispatch again —
each accepted connection serves exactly one request/response cycle. -/
theorem loop_close_after_dispatch_C6 (s : LoopState) (inp : LoopInput) (req : List Char)
    (hconn : s.clientConnected = true)
    (hd : (accumulate s.currentRequest inp.clientBytes).2.1 = some req) :
    (loopStep s inp).dispatched = some req ∧
    (loopStep s inp).clientStopped = true ∧
    (loopStep s inp).state.clientConnected = false ∧
    (∀ inp2, (loopStep (loopStep s inp).state inp2).dispatched = none) := by
  rcases hacc : accumulate s.currentRequest inp.clientBytes with ⟨buf2, o, r2⟩
  rw [hacc] at hd
  simp only at hd
  subst hd
  refine ⟨?_, ?_, ?_, ?_⟩ <;> simp [loopStep, hconn, hacc]

/-- Witness for C6 at concrete inputs. -/
theorem loop_close_after_dispatch_C6_witness :
    (loopStep ⟨true, [], 0, []⟩ ⟨0, false, "\r\n\r\n".toList, none⟩).clientStopped = true :=
  (loop_close_after_dispatch_C6 ⟨true, [], 0, []⟩ ⟨0, false, "\r\n\r\n".toList, none⟩
    ("\r\n\r\n".toList) rfl (by decide)).2.1

/-- Claim C7: when the available bytes do not complete a request and the
time since the connection was accepted exceeds `clientTimeout` (1000 ms),
the loop stops the client, dispatches nothing (so no response bytes are
produced), and leaves the connection closed. -/
theorem loop_timeout_C7 (s : LoopState) (inp : LoopInput)
    (hconn : s.clientConnected = true)
    (hnod : (accumulate s.currentRequest inp.clientBytes).2.1 = none)
    (ht : clientTimeout < inp.now - s.lastClientCheck) :
    (loopStep s inp).clientStopped = true ∧
    (loopStep s inp).dispatched = none ∧
    (loopStep s inp).state.clientConnected = false := by
  rcases hacc : accumulate s.currentRequest inp.clientBytes with ⟨buf2, o, r2⟩
  rw [hacc] at hnod
  simp only at hnod
  subst hnod
  refine ⟨?_, ?_, ?_⟩ <;> simp [loopStep, hconn, hacc, ht]

/-- Witness for C7 at concrete inputs. -/
theorem loop_timeout_C7_witness :
    (loopStep ⟨true, [], 0, []⟩ ⟨2000, false, [], none⟩).clientStopped = true :=
  (loop_timeout_C7 ⟨true, [], 0, []⟩ ⟨2000, false, [], none⟩ rfl rfl (by decide)).1

/-- Claim C8: in an invocation that reaches the RFID section with a card
present, a granted card drives the output through exactly set-high, a
blocking 1000 ms delay, then set-low; a denied card drives the output
through no actions at all. -/
theorem loop_pulse_C8 (s : LoopState) (inp : LoopInput) (cid : List Char)
    (hconn : s.clientConnected = true)
    (hnod : (accumulate s.currentRequest inp.clientBytes).2.1 = none)
    (hcard : inp.card = some cid) :
    (checkCardAccess cid s.fileRows = true →
      (loopStep s inp).outputActions =
        [OutputAction.setHigh, OutputAction.delayMs 1000, OutputAction.setLow]) ∧
    (checkCardAccess cid s.fileRows = false →
      (loopStep s inp).outputActions = []) := by
  rcases hacc : accumulate s.currentRequest inp.clientBytes with ⟨buf2, o, r2⟩
  rw [hacc] at hnod
  simp only at hnod
  subst hnod
  constructor <;> intro hval <;> simp [loopStep, hconn, hacc, hcard, hval]

/-- Witness for C8 at concrete inputs: the store holds
`A1B2|Alice|Eng|1`, the scanned id `A1B2` is granted, and the output pulse
is exactly high, 1000 ms delay, low. -/
theorem loop_pulse_C8_witness :
    (loopStep ⟨true, [], 0, ["A1B2|Alice|Eng|1".toList]⟩
        ⟨0, false, [], some ("A1B2".toList)⟩).outputActions
      = [OutputAction.setHigh, OutputAction.delayMs 1000, OutputAction.setLow] :=
  (loop_pulse_C8 ⟨true, [], 0, ["A1B2|Alice|Eng|1".toList]⟩
    ⟨0, false, [], some ("A1B2".toList)⟩ ("A1B2".toList) rfl rfl rfl).1 (by decide)

/-- Claim C3 fails on the code: a loop invocation entered with no connected
client returns at source line 111 immediately after polling
`server.available()`, so the RFID reader is not polled in that invocation
even though a card is present and enabled in the store. -/
theorem loop_idle_skips_rfid_C3 :
    (loopStep ⟨false, [], 0, ["A1B2|Alice|Eng|1".toList]⟩
        ⟨0, true, [], some ("A1B2".toList)⟩).rfidPolled = false := rfl

/-- Claim C2 fails on the code: `currentRequest` is an Arduino `String`
grown by `+=` with no capacity test anywhere in the receive loop, so 600
non-terminator bytes are accumulated in full — far past the claimed
512-byte bound — while the connection stays open, nothing is dispatched,
and the request is not rejected. -/
theorem loop_unbounded_buffer_C2_counterexample :
    (loopStep ⟨true, [], 0, []⟩
        ⟨0, false, List.replicate 600 'a', none⟩).state.currentRequest.length = 600 ∧
    (loopStep ⟨true, [], 0, []⟩
        ⟨0, false, List.replicate 600 'a', none⟩).dispatched = none ∧
    (loopStep ⟨true, [], 0, []⟩
        ⟨0, false, List.replicate 600 'a', none⟩).clientStopped = false := by
  have hacc := accumulate_of_no_newline (List.replicate 600 'a') []
      (fun c hc => by rw [List.eq_of_mem_replicate hc]; decide)
  rw [List.nil_append] at hacc
  have h := loopStep_none_branch ⟨true, [], 0, []⟩ ⟨0, false, List.replicate 600 'a', none⟩
      (List.replicate 600 'a') [] rfl hacc
  refine ⟨?_, h.2.1, ?_⟩
  · rw [h.1, List.length_replicate]
  · rw [h.2.2]
    decide

/-- Claim C2 as amended: the request accumulation buffer has no fixed
capacity — every available byte is appended regardless of the buffer's
size, so any byte sequence that cannot complete the terminator is
accumulated in full, with no dispatch and, within the timeout window, no
closing of the connection; an incomplete request is only ever discarded by
the separate 1000 ms client timeout. -/
theorem loop_unbounded_buffer_C2_amended (s : LoopState) (inp : LoopInput)
    (hconn : s.clientConnected = true)
    (hnl : ∀ c ∈ inp.clientBytes, c ≠ '\n')
    (ht : inp.now - s.lastClientCheck ≤ clientTimeout) :
    (loopStep s inp).state.currentRequest = s.currentRequest ++ inp.clientBytes ∧
    (loopStep s inp).dispatched = none ∧
    (loopStep s inp).clientStopped = false ∧
    (loopStep s inp).state.clientConnected = true := by
  have hacc := accumulate_of_no_newline inp.clientBytes s.currentRequest hnl
  have hnt : ¬ (clientTimeout < inp.now - s.lastClientCheck) := by omega
  refine ⟨?_, ?_, ?_, ?_⟩ <;> simp [loopStep, hconn, hacc, hnt]

/-- Witness for the amended C2 at the spec's 600-byte scenario. -/
theorem loop_unbounded_buffer_C2_amended_witness :
    (loopStep ⟨true, [], 0, []⟩
        ⟨0, false, List.replicate 600 'a', none⟩).state.currentRequest
      = List.replicate 600 'a' := by
  have h := (loop_unbounded_buffer_C2_amended ⟨true, [], 0, []⟩
      ⟨0, false, List.replicate 600 'a', none⟩ rfl
      (fun c hc => by rw [List.eq_of_mem_replicate hc]; decide) (by decide)).1
  rw [List.nil_append] at h
  exact h
